import Mathlib

/-!
Verification development for the investments balance-tracking subsystem of the
home-assistant-api repository (src/routes/investments/shared/index.ts, called
part_013 below, src/routes/investments/dashboard, part_010, and the data model
of src/routes/investments/models.ts).

Conventions of the shallow embedding:
* Time is an integer count of milliseconds since the epoch (dayjs timestamps).
  The local timezone is identified with UTC, so dayjs().startOf('day') and
  dayjs.utc().startOf('day') coincide.
* JavaScript numbers (prices, balances, rates) are modelled as rationals.
  The one place a NaN is observable (division by undefined in
  handlePercentageChange) uses the explicit JsNum type.
* The MongoDB investments collection is a list of documents in natural order.
  findOne without sort returns the first match; updateOne updates the first
  match; insertOne appends.  Documents are the tagged union of the record
  shapes that actually live in the collection (models.ts): daily-balance
  snapshots, auth credentials, and the three singleton caches.
* Remote HTTP endpoints (Questrade, Frankfurter) are an oracle structure whose
  fields return Except Int carrying the non-success HTTP status on failure.
-/

/-- Milliseconds per day (dayjs 'day' unit). -/
def dayMs : Int := 86400000

/-- Milliseconds per minute (dayjs 'minutes' unit). -/
def minuteMs : Int := 60000

/-- dayjs().startOf('day'): truncate a timestamp to the start of its calendar
day.  Floor division, so it is correct for timestamps before the epoch too. -/
def startOfDay (t : Int) : Int := dayMs * (t.fdiv dayMs)

/-- dayjs a.diff(b, 'minutes'): the difference in whole minutes, truncated
toward zero exactly as dayjs truncates. -/
def diffMinutes (a b : Int) : Int := Int.tdiv (a - b) minuteMs

/-- JavaScript Math.round: floor(x + 1/2), halves round toward positive
infinity. -/
def jsRound (q : ℚ) : Int := ⌊q + 1/2⌋

/-- Round to two decimals the way the source does:
Math.round(x * 100) / 100. -/
def round2 (q : ℚ) : ℚ := (jsRound (q * 100) : ℚ) / 100

/-- Result of a JavaScript division whose operands may be undefined or zero:
latest / yesterday in handlePercentageChange can observably be NaN. -/
inductive JsNum where
  | nan : JsNum
  | posInf : JsNum
  | negInf : JsNum
  | num (q : ℚ) : JsNum
deriving Repr, DecidableEq

/-- JavaScript division a / b of two ordinary numbers. -/
def jsDiv (a b : ℚ) : JsNum :=
  if b = 0 then
    if a > 0 then .posInf else if a < 0 then .negInf else .nan
  else .num (a / b)

/-- JavaScript division a / b where b : number | undefined; division by
undefined yields NaN. -/
def jsDivOpt (a : ℚ) (b : Option ℚ) : JsNum :=
  match b with
  | none => .nan
  | some q => jsDiv a q

/-! ## Data model (src/routes/investments/models.ts)

Record fields that none of the embedded functions read (e.g. the market-data
fields of QuestradePosition beyond openQuantity, bid/ask of QuestradeQuote)
are omitted; everything the embedded code touches is present. -/

/-- Auth: one stored credential per account owner (models.ts).  The `auth:
true` discriminator tag is carried by the Doc constructor below. -/
structure Auth where
  owner : String
  accessToken : String
  refreshToken : String
  expiry : Int
  uri : String
deriving Repr, DecidableEq

/-- QuestradeRefreshTokenGrant: the token-exchange response body. -/
structure QuestradeRefreshTokenGrant where
  access_token : String
  api_server : String
  expires_in : Int
  refresh_token : String
deriving Repr, DecidableEq

/-- Account: account descriptor from the Questrade accounts endpoint. -/
structure Account where
  type : String
  number : String
deriving Repr, DecidableEq

/-- AccountBalance: one entry of the accounts cache. -/
structure AccountBalance where
  accountNumber : String
  accountType : String
  owner : String
  balance : ℚ
deriving Repr, DecidableEq

/-- SymbolPerformance: one entry of the symbols cache. -/
structure SymbolPerformance where
  symbol : String
  symbolId : Nat
  description : String
  dayChangePercent : ℚ
deriving Repr, DecidableEq

/-- QuestradePosition (the fields updateSymbolsCache reads). -/
structure QuestradePosition where
  symbol : String
  symbolId : Nat
  openQuantity : ℚ
deriving Repr, DecidableEq

/-- QuestradeQuote (the fields updateSymbolsCache reads). -/
structure QuestradeQuote where
  symbol : String
  symbolId : Nat
  lastTradePrice : ℚ
  openPrice : ℚ
deriving Repr, DecidableEq

/-- QuestradeSymbol (the fields updateSymbolsCache reads); prevDayClosePrice
is nullable upstream, hence Option. -/
structure QuestradeSymbol where
  symbolId : Nat
  description : String
  prevDayClosePrice : Option ℚ
deriving Repr, DecidableEq

/-- A document of the investments collection: the tagged union of the record
shapes stored there (daily-balance snapshots, credentials flagged with
auth: true, and the three singleton caches discriminated by a type tag). -/
inductive Doc where
  | snapshot (date : Int) (balance : ℚ) : Doc
  | authDoc (a : Auth) : Doc
  | accountsCache (accounts : List AccountBalance) (updatedAt : Int) : Doc
  | symbolsCache (symbols : List SymbolPerformance) (updatedAt : Int) : Doc
  | exchangeRateCache (usdToCad : ℚ) (updatedAt : Int) : Doc
deriving Repr, DecidableEq

/-- The investments collection in natural (insertion) order. -/
abbrev Store := List Doc

/-- Filter { date: d }: only daily-balance snapshots carry a date field. -/
def Doc.isSnapshotFor (date : Int) : Doc → Bool
  | .snapshot d _ => d == date
  | _ => false

/-- Filter { auth: true }. -/
def Doc.isAuthDoc : Doc → Bool
  | .authDoc _ => true
  | _ => false

/-- Filter { owner: o }: only credential documents carry an owner field. -/
def Doc.hasOwner (o : String) : Doc → Bool
  | .authDoc a => a.owner == o
  | _ => false

/-- Filter { type: 'accounts' }. -/
def Doc.isAccountsCache : Doc → Bool
  | .accountsCache _ _ => true
  | _ => false

/-- Filter { type: 'symbols' }. -/
def Doc.isSymbolsCache : Doc → Bool
  | .symbolsCache _ _ => true
  | _ => false

/-- Filter { type: 'exchange-rate' }. -/
def Doc.isExchangeRateCache : Doc → Bool
  | .exchangeRateCache _ _ => true
  | _ => false

/-- The credential documents of the store, in collection order
(collection.find with filter auth: true). -/
def authDocs (store : Store) : List Auth :=
  store.filterMap fun d => match d with
    | .authDoc a => some a
    | _ => none

/-- updateOne semantics: rewrite the first document matching the filter,
leave the rest untouched (no-op when nothing matches). -/
def updateFirst (p : Doc → Bool) (f : Doc → Doc) : Store → Store
  | [] => []
  | d :: rest => if p d then f d :: rest else d :: updateFirst p f rest

/-- updateOne with upsert: true semantics: rewrite the first match, or insert
the document when nothing matches. -/
def upsertDoc (p : Doc → Bool) (d : Doc) (store : Store) : Store :=
  if store.any p then updateFirst p (fun _ => d) store else store ++ [d]

/-! ## Daily balance snapshots (part_013 lines 61-110) -/

/-- The snapshots of the store as (date, balance) pairs. -/
def snapshots (store : Store) : List (Int × ℚ) :=
  store.filterMap fun d => match d with
    | .snapshot date b => some (date, b)
    | _ => none

/-- findOne({}, sort date descending): the snapshot of maximal date comes
first (documents without a date field sort after all dated ones in a
descending MongoDB sort). -/
def latestSnapshot (store : Store) : Option (Int × ℚ) :=
  (snapshots store).foldl
    (fun acc p => match acc with
      | none => some p
      | some q => if p.1 > q.1 then some p else some q)
    none

/-- getLatestBalance (part_013 lines 61-65): most recent snapshot balance,
or 0 when no snapshot exists. -/
def getLatestBalance (store : Store) : ℚ :=
  match latestSnapshot store with
  | some (_, b) => b
  | none => 0

/-- getYesterdayBalance (part_013 lines 71-79): exact-match lookup of the
snapshot dated at start-of-yesterday; undefined when absent. -/
def getYesterdayBalance (now : Int) (store : Store) : Option ℚ :=
  let date := startOfDay now - dayMs
  match store.find? (Doc.isSnapshotFor date) with
  | some (.snapshot _ b) => some b
  | _ => none

/-- getTodayBalance (part_013 lines 85-90): looks up the snapshot dated at
start-of-today and returns its balance when
dayjs(balance.date).diff(dayjs(), 'minutes') is at most 15, null otherwise. -/
def getTodayBalance (now : Int) (store : Store) : Option ℚ :=
  match store.find? (Doc.isSnapshotFor (startOfDay now)) with
  | some (.snapshot date b) =>
      if diffMinutes date now ≤ 15 then some b else none
  | _ => none

/-- updateDailyBalance (part_013 lines 96-110): update today's snapshot in
place when it exists, otherwise insert a fresh snapshot dated at
start-of-today. -/
def updateDailyBalance (now : Int) (store : Store) (balance : ℚ) : Store :=
  let todayDate := startOfDay now
  if store.any (Doc.isSnapshotFor todayDate) then
    updateFirst (Doc.isSnapshotFor todayDate)
      (fun d => match d with
        | .snapshot date _ => .snapshot date balance
        | other => other)
      store
  else
    store ++ [.snapshot todayDate balance]

/-! ## Remote endpoints

The brokerage and exchange-rate HTTP endpoints are an oracle: each field
returns Except Int, the error carrying the non-success HTTP status (the code
throws the failed response object / an error built from it). -/

/-- The remote world the subsystem calls into. -/
structure Remote where
  refreshGrant : String → Except Int QuestradeRefreshTokenGrant
  accountsFor : Auth → Except Int (List Account)
  accountBalance : Auth → String → Except Int ℚ
  positions : Auth → String → Except Int (List QuestradePosition)
  quotes : Auth → List Nat → Except Int (List QuestradeQuote)
  symbolDetails : Auth → List Nat → Except Int (List QuestradeSymbol)
  exchangeRate : Except Int ℚ

/-- Sequence a fallible call over a list, left to right, aborting at the
first failure (the await-in-a-loop pattern of the source). -/
def mapE (f : α → Except Int β) : List α → Except Int (List β)
  | [] => .ok []
  | x :: rest => do
      let y ← f x
      let ys ← mapE f rest
      pure (y :: ys)

/-! ## Credential store: getAuths (part_013 lines 117-135)

getAuths reads the credential list once, then walks it: a credential whose
expiry is strictly before now is refreshed through the token-exchange call
and upserted into the collection keyed by its owner; the first failed
exchange throws out of the whole function.  The embedding threads the store
and records the sequence of token-exchange calls made (by refresh token). -/

/-- In-memory mutation of one credential from a grant (part_013 lines
125-129): new expiry = now + (expires_in - 30) seconds. -/
def refreshAuth (now : Int) (grant : QuestradeRefreshTokenGrant) (a : Auth) : Auth :=
  { owner := a.owner
    accessToken := grant.access_token
    refreshToken := grant.refresh_token
    expiry := now + (grant.expires_in - 30) * 1000
    uri := grant.api_server }

/-- updateOne(filter owner, set auth, upsert: true) on the collection. -/
def upsertByOwner (store : Store) (a : Auth) : Store :=
  upsertDoc (Doc.hasOwner a.owner) (.authDoc a) store

/-- Outcome of getAuths: the returned list (or the thrown status), the
collection after the per-credential upserts, and the token-exchange calls
issued, in order. -/
structure GetAuthsOut where
  result : Except Int (List Auth)
  store : Store
  calls : List String
deriving Repr

/-- The refresh loop of getAuths over the list read at entry. -/
def getAuthsLoop (env : Remote) (now : Int) : List Auth → Store → GetAuthsOut
  | [], store => ⟨.ok [], store, []⟩
  | a :: rest, store =>
      if a.expiry < now then
        match env.refreshGrant a.refreshToken with
        | .error status => ⟨.error status, store, [a.refreshToken]⟩
        | .ok grant =>
            let a' := refreshAuth now grant a
            let out := getAuthsLoop env now rest (upsertByOwner store a')
            ⟨out.result.map (a' :: ·), out.store, a.refreshToken :: out.calls⟩
      else
        let out := getAuthsLoop env now rest store
        ⟨out.result.map (a :: ·), out.store, out.calls⟩

/-- getAuths (part_013 lines 117-135). -/
def getAuths (env : Remote) (now : Int) (store : Store) : GetAuthsOut :=
  getAuthsLoop env now (authDocs store) store

/-! ## Balance handlers (part_013 lines 255-307) -/

/-- Result shape of handlePercentageChange. -/
structure PercentageChangeResult where
  ratio : JsNum
  success : Bool
deriving Repr, DecidableEq

/-- handlePercentageChange (part_013 lines 295-307): latest / yesterday with
no guard; the database reads cannot throw, so the catch branch is dead and
success is always true.  When yesterday is undefined the JavaScript division
produces NaN. -/
def handlePercentageChange (now : Int) (store : Store) : PercentageChangeResult :=
  let latest := getLatestBalance store
  let yesterday := getYesterdayBalance now store
  { ratio := jsDivOpt latest yesterday, success := true }

/-! ## Cache updaters (part_013 lines 413-541, 586-606)

Each updater wraps its whole body in try/catch; a thrown upstream error is
logged and swallowed, leaving the collection as the writes already executed
left it (the getAuths upserts persist even when a later fetch fails). -/

/-- The loop body of updateAccountsCache for one credential: list the
accounts, then fetch each account's CAD balance (part_013 lines 419-431). -/
def collectForAuth (env : Remote) (a : Auth) : Except Int (List AccountBalance) := do
  let accounts ← env.accountsFor a
  mapE (fun account => (env.accountBalance a account.number).map fun balance =>
    { accountNumber := account.number
      accountType := account.type
      owner := a.owner
      balance := balance }) accounts

/-- All account balances across all credentials, in loop order. -/
def collectAccountBalances (env : Remote) (auths : List Auth) :
    Except Int (List AccountBalance) :=
  (mapE (collectForAuth env) auths).map List.flatten

/-- updateAccountsCache (part_013 lines 413-451). -/
def updateAccountsCache (env : Remote) (now : Int) (store : Store) : Store :=
  let out := getAuths env now store
  match out.result with
  | .error _ => out.store
  | .ok auths =>
      match collectAccountBalances env auths with
      | .error _ => out.store
      | .ok accountBalances =>
          upsertDoc Doc.isAccountsCache (.accountsCache accountBalances now) out.store

/-- A value of the symbolMap of updateSymbolsCache: the pair the source
stores per distinct symbol id. -/
structure SymbolRef where
  symbol : String
  symbolId : Nat
deriving Repr, DecidableEq

/-- First-seen de-duplication of positions by symbol id, excluding positions
without positive open quantity (part_013 lines 463-478); seen is the set of
ids already in the Map. -/
def collectSymbolsFrom (seen : List Nat) : List QuestradePosition → List SymbolRef
  | [] => []
  | p :: rest =>
      if 0 < p.openQuantity ∧ ¬ seen.contains p.symbolId then
        { symbol := p.symbol, symbolId := p.symbolId }
        :: collectSymbolsFrom (p.symbolId :: seen) rest
      else
        collectSymbolsFrom seen rest

/-- The symbolMap of updateSymbolsCache in Map insertion order. -/
def collectSymbols (ps : List QuestradePosition) : List SymbolRef :=
  collectSymbolsFrom [] ps

/-- All positions across every credential and account, in loop order
(part_013 lines 463-478). -/
def collectPositions (env : Remote) (auths : List Auth) :
    Except Int (List QuestradePosition) :=
  (mapE (fun a => do
      let accounts ← env.accountsFor a
      (mapE (fun account => env.positions a account.number) accounts).map List.flatten)
    auths).map List.flatten

/-- descriptionMap.get(id) || two-quote empty string: the description of the
last detail stored for the id, defaulting to the empty string (Map.set
overwrites, so the last detail wins). -/
def descriptionOf (details : List QuestradeSymbol) (id : Nat) : String :=
  match details.reverse.find? (fun d => d.symbolId == id) with
  | some d => d.description
  | none => ""

/-- prevCloseMap.get(id) ?? openPrice feeds basePrice: both a missing map
entry (undefined) and a stored null fall through to the open price, so the
lookup flattens to one Option. -/
def prevCloseOf (details : List QuestradeSymbol) (id : Nat) : Option ℚ :=
  match details.reverse.find? (fun d => d.symbolId == id) with
  | some d => d.prevDayClosePrice
  | none => none

/-- The quote-processing loop of updateSymbolsCache (part_013 lines 506-520):
basePrice is the previous close when available, else the open price; the
day-change percent is guarded to 0 when basePrice is not positive, and
rounded to two decimals. -/
def buildSymbolPerformances (details : List QuestradeSymbol) :
    List QuestradeQuote → List SymbolPerformance
  | [] => []
  | quote :: rest =>
      let prevClose := prevCloseOf details quote.symbolId
      let basePrice := prevClose.getD quote.openPrice
      let dayChangePercent :=
        if basePrice > 0 then ((quote.lastTradePrice - basePrice) / basePrice) * 100
        else 0
      { symbol := quote.symbol
        symbolId := quote.symbolId
        description := descriptionOf details quote.symbolId
        dayChangePercent := round2 dayChangePercent }
      :: buildSymbolPerformances details rest

/-- updateSymbolsCache (part_013 lines 457-541).  Note the early return when
there are symbols to quote but the re-read credential list is empty: in that
one case nothing is written at all. -/
def updateSymbolsCache (env : Remote) (now : Int) (store : Store) : Store :=
  let out := getAuths env now store
  match out.result with
  | .error _ => out.store
  | .ok auths =>
      match collectPositions env auths with
      | .error _ => out.store
      | .ok positions =>
          let symbolMap := collectSymbols positions
          if symbolMap.isEmpty then
            upsertDoc Doc.isSymbolsCache (.symbolsCache [] now) out.store
          else
            let fresh := getAuths env now out.store
            match fresh.result with
            | .error _ => fresh.store
            | .ok freshAuths =>
                match freshAuths with
                | [] => fresh.store
                | firstAuth :: _ =>
                    let symbolIds := symbolMap.map (·.symbolId)
                    match env.quotes firstAuth symbolIds,
                          env.symbolDetails firstAuth symbolIds with
                    | .ok quotes, .ok details =>
                        upsertDoc Doc.isSymbolsCache
                          (.symbolsCache (buildSymbolPerformances details quotes) now)
                          fresh.store
                    | _, _ => fresh.store

/-- updateExchangeRateCache (part_013 lines 586-606). -/
def updateExchangeRateCache (env : Remote) (now : Int) (store : Store) : Store :=
  match env.exchangeRate with
  | .error _ => store
  | .ok usdToCad =>
      upsertDoc Doc.isExchangeRateCache (.exchangeRateCache usdToCad now) store

/-! ## Historical data (part_013 lines 548-565) -/

/-- Insertion into a date-ascending list (the comparator of the source's
sort: date ascending). -/
def insertByDate (x : Int × ℚ) : List (Int × ℚ) → List (Int × ℚ)
  | [] => [x]
  | y :: ys => if x.1 < y.1 then x :: y :: ys else y :: insertByDate x ys

/-- Sort (date, value) pairs ascending by date. -/
def sortByDate (l : List (Int × ℚ)) : List (Int × ℚ) :=
  l.foldr insertByDate []

/-- getHistoricalData (part_013 lines 548-565): snapshots from the cutoff
(days ago, truncated to start of day) onward, date ascending.  The embedding
keeps dates numeric rather than formatting them. -/
def getHistoricalData (now : Int) (store : Store) (days : Int := 365) :
    List (Int × ℚ) :=
  let cutoffDate := startOfDay (now - days * dayMs)
  sortByDate ((snapshots store).filter (fun p => cutoffDate ≤ p.1))

/-! ## Dashboard route (part_010 lines 26-88)

Each of the three singleton caches is read once; when absent, the matching
refresh procedure is invoked once and the cache is re-read once.  The reads
below return the post-populate cache value (as the route variable holds it),
the store after the attempt, and how many times the refresh procedure ran. -/

/-- findOne(type accounts) projected to the cache payload. -/
def findAccountsCache (store : Store) : Option (List AccountBalance × Int) :=
  match store.find? Doc.isAccountsCache with
  | some (.accountsCache accounts updatedAt) => some (accounts, updatedAt)
  | _ => none

/-- findOne(type symbols) projected to the cache payload. -/
def findSymbolsCache (store : Store) : Option (List SymbolPerformance × Int) :=
  match store.find? Doc.isSymbolsCache with
  | some (.symbolsCache symbols updatedAt) => some (symbols, updatedAt)
  | _ => none

/-- findOne(type exchange-rate) projected to the cache payload. -/
def findExchangeRateCache (store : Store) : Option (ℚ × Int) :=
  match store.find? Doc.isExchangeRateCache with
  | some (.exchangeRateCache usdToCad updatedAt) => some (usdToCad, updatedAt)
  | _ => none

/-- part_010 lines 43-47: read the accounts cache, lazily populating it once
when absent. -/
def dashboardAccountsRead (env : Remote) (now : Int) (store : Store) :
    Option (List AccountBalance × Int) × Store × Nat :=
  match findAccountsCache store with
  | some c => (some c, store, 0)
  | none =>
      let s := updateAccountsCache env now store
      (findAccountsCache s, s, 1)

/-- part_010 lines 51-55: read the symbols cache, lazily populating it once
when absent. -/
def dashboardSymbolsRead (env : Remote) (now : Int) (store : Store) :
    Option (List SymbolPerformance × Int) × Store × Nat :=
  match findSymbolsCache store with
  | some c => (some c, store, 0)
  | none =>
      let s := updateSymbolsCache env now store
      (findSymbolsCache s, s, 1)

/-- part_010 lines 59-63: read the exchange-rate cache, lazily populating it
once when absent. -/
def dashboardExchangeRead (env : Remote) (now : Int) (store : Store) :
    Option (ℚ × Int) × Store × Nat :=
  match findExchangeRateCache store with
  | some c => (some c, store, 0)
  | none =>
      let s := updateExchangeRateCache env now store
      (findExchangeRateCache s, s, 1)

/-- part_010 line 66: lastUpdated = symbolsCache updatedAt, or-else
accountsCache updatedAt, or-else now (JavaScript or-chaining; a Date object
is always truthy). -/
def lastUpdatedOf (symbolsCache : Option (List SymbolPerformance × Int))
    (accountsCache : Option (List AccountBalance × Int)) (now : Int) : Int :=
  match symbolsCache with
  | some (_, t) => t
  | none =>
      match accountsCache with
      | some (_, t) => t
      | none => now

/-- The dashboard payload (part_010 lines 68-81), with timestamps kept
numeric. -/
structure Dashboard where
  amount : ℚ
  changePercent : ℚ
  history : List (Int × ℚ)
  accounts : List AccountBalance
  symbols : List SymbolPerformance
  usdToCad : ℚ
  exchangeUpdatedAt : Int
  lastUpdated : Int
deriving Repr, DecidableEq

/-- part_010 lines 34-37: changePercent = round2 of the percent move, with a
zero-fallback when yesterday's balance is undefined or not positive
(yesterdayBalance truthy and greater than 0 collapse to greater than 0). -/
def dashboardChangePercent (latestBalance : ℚ) (yesterdayBalance : Option ℚ) : ℚ :=
  match yesterdayBalance with
  | some y =>
      if y > 0 then (jsRound (((latestBalance - y) / y) * 10000) : ℚ) / 100
      else 0
  | none => 0

/-- The dashboard route handler body (part_010 lines 26-88): latest and
yesterday balances, guarded change percent, history, the three lazily
populated cache reads in source order, and the assembled payload.  Returns
the payload, the store after the populate attempts, and the number of times
each refresh procedure ran (accounts, symbols, exchange rate). -/
def dashboardHandler (env : Remote) (now : Int) (store : Store) :
    Dashboard × Store × (Nat × Nat × Nat) :=
  let A := dashboardAccountsRead env now store
  let S := dashboardSymbolsRead env now A.2.1
  let E := dashboardExchangeRead env now S.2.1
  ({ amount := getLatestBalance store
     changePercent :=
       dashboardChangePercent (getLatestBalance store) (getYesterdayBalance now store)
     history := getHistoricalData now store 365
     accounts := ((A.1.map Prod.fst).getD [])
     symbols := ((S.1.map Prod.fst).getD [])
     usdToCad := ((E.1.map Prod.fst).getD 0)
     exchangeUpdatedAt := ((E.1.map Prod.snd).getD now)
     lastUpdated := lastUpdatedOf S.1 A.1 now },
   E.2.1, (A.2.2, S.2.2, E.2.2))

/-! ## Specification-side definitions and concrete fixtures -/

/-- Modelled from the spec's words (section 4.6): day-change percent =
round2 of ((lastTradePrice - basePrice) / basePrice) times 100 where
basePrice is the previous close when available, else the open price, and 0
outright when basePrice is not positive.  Stated independently of the
source loop so the two can be compared. -/
def dayChangeSpec (prevClose : Option ℚ) (openPrice lastTradePrice : ℚ) : ℚ :=
  let basePrice := prevClose.getD openPrice
  if basePrice > 0 then round2 (((lastTradePrice - basePrice) / basePrice) * 100)
  else 0

/-- A concrete remote world in which every upstream call fails with HTTP
status 500 (used to evaluate the embedding at closed inputs). -/
def env0 : Remote :=
  { refreshGrant := fun _ => .error 500
    accountsFor := fun _ => .error 500
    accountBalance := fun _ _ => .error 500
    positions := fun _ _ => .error 500
    quotes := fun _ _ => .error 500
    symbolDetails := fun _ _ => .error 500
    exchangeRate := .error 500 }

/-- A concrete 30-minute token grant (the Questrade lifetime). -/
def grant1800 : QuestradeRefreshTokenGrant :=
  { access_token := "at2", api_server := "u2"
    expires_in := 1800, refresh_token := "rt2" }

/-- A concrete degenerate grant with a zero-second lifetime. -/
def grant0 : QuestradeRefreshTokenGrant :=
  { access_token := "at2", api_server := "u2"
    expires_in := 0, refresh_token := "rt2" }

/-- A concrete remote world whose token exchange always succeeds with the
30-minute grant, other calls failing. -/
def envOk : Remote :=
  { env0 with refreshGrant := fun _ => .ok grant1800 }

/-- A concrete remote world whose token exchange succeeds with the
zero-second grant lifetime. -/
def envZero : Remote :=
  { env0 with refreshGrant := fun _ => .ok grant0 }

/-! ## Library lemmas about the collection operations -/

/-- A matching document stays matching after updateFirst rewrites it, so the
first match of the updated store is the rewritten first match of the old. -/
lemma find?_updateFirst {p : Doc → Bool} {f : Doc → Doc}
    (hp : ∀ d, p d = true → p (f d) = true) :
    ∀ l : Store, l.any p = true →
      (updateFirst p f l).find? p = (l.find? p).map f := by
  intro l
  induction l with
  | nil => intro h; simp at h
  | cons d rest ih =>
      intro hany
      cases hd : p d with
      | true => simp [updateFirst, hd, List.find?_cons, hp d hd]
      | false =>
          have hany' : rest.any p = true := by simpa [hd] using hany
          simp [updateFirst, hd, List.find?_cons, ih hany']

/-- updateFirst preserves the number of matches when the rewrite keeps the
document matching. -/
lemma countP_updateFirst {p : Doc → Bool} {f : Doc → Doc}
    (hp : ∀ d, p d = true → p (f d) = true) :
    ∀ l : Store, (updateFirst p f l).countP p = l.countP p := by
  intro l
  induction l with
  | nil => rfl
  | cons d rest ih =>
      by_cases hd : p d = true
      · simp [updateFirst, hd, List.countP_cons, hp d hd]
      · have hd' : p d = false := by simpa using hd
        simp [updateFirst, hd', List.countP_cons, ih]

/-- updateFirst does not touch the non-matching documents. -/
lemma filter_not_updateFirst {p : Doc → Bool} {f : Doc → Doc}
    (hp : ∀ d, p d = true → p (f d) = true) :
    ∀ l : Store, (updateFirst p f l).filter (fun d => ! p d) =
      l.filter (fun d => ! p d) := by
  intro l
  induction l with
  | nil => rfl
  | cons d rest ih =>
      by_cases hd : p d = true
      · simp [updateFirst, hd, List.filter_cons, hp d hd]
      · have hd' : p d = false := by simpa using hd
        simp [updateFirst, hd', List.filter_cons, ih]

/-- find? over an append whose left part has no match. -/
lemma find?_append_none {p : Doc → Bool} {l₁ l₂ : Store}
    (h : l₁.find? p = none) : (l₁ ++ l₂).find? p = l₂.find? p := by
  induction l₁ with
  | nil => rfl
  | cons d rest ih =>
      cases hd : p d with
      | true => simp [List.find?_cons, hd] at h
      | false =>
          simp only [List.find?_cons, hd] at h
          simp [List.find?_cons, hd, ih h]

/-- The balance rewrite of updateDailyBalance keeps a document matching the
date filter. -/
lemma isSnapshotFor_setBalance (today : Int) (b : ℚ) :
    ∀ d : Doc, Doc.isSnapshotFor today d = true →
      Doc.isSnapshotFor today
        (match d with
          | .snapshot date _ => .snapshot date b
          | other => other) = true := by
  intro d hd
  cases d <;> simp_all [Doc.isSnapshotFor]

/-- After updateDailyBalance, the first snapshot for today carries the
written balance. -/
lemma find?_updateDailyBalance (now : Int) (store : Store) (b : ℚ) :
    (updateDailyBalance now store b).find?
        (Doc.isSnapshotFor (startOfDay now)) =
      some (.snapshot (startOfDay now) b) := by
  unfold updateDailyBalance
  by_cases h : store.any (Doc.isSnapshotFor (startOfDay now)) = true
  · rw [if_pos h, find?_updateFirst (isSnapshotFor_setBalance _ b) store h]
    have hsome : (store.find? (Doc.isSnapshotFor (startOfDay now))).isSome := by
      obtain ⟨d, hd, hpd⟩ := List.any_eq_true.mp h
      exact List.find?_isSome.mpr ⟨d, hd, hpd⟩
    obtain ⟨m, hm⟩ := Option.isSome_iff_exists.mp hsome
    rw [hm]
    have hpm := List.find?_some hm
    cases m with
    | snapshot date bal =>
        have : date = startOfDay now := by
          simpa [Doc.isSnapshotFor] using hpm
        simp [this]
    | authDoc a => simp [Doc.isSnapshotFor] at hpm
    | accountsCache x y => simp [Doc.isSnapshotFor] at hpm
    | symbolsCache x y => simp [Doc.isSnapshotFor] at hpm
    | exchangeRateCache x y => simp [Doc.isSnapshotFor] at hpm
  · rw [if_neg h]
    have hnone : store.find? (Doc.isSnapshotFor (startOfDay now)) = none := by
      rw [List.find?_eq_none]
      intro d hd hpd
      exact h (List.any_eq_true.mpr ⟨d, hd, hpd⟩)
    rw [find?_append_none hnone]
    simp [List.find?_cons, Doc.isSnapshotFor]

/-- updateDailyBalance leaves exactly one snapshot for today when the store
held at most one, and never adds a second one. -/
lemma countP_updateDailyBalance (now : Int) (store : Store) (b : ℚ) :
    (updateDailyBalance now store b).countP
        (Doc.isSnapshotFor (startOfDay now)) =
      max (store.countP (Doc.isSnapshotFor (startOfDay now))) 1 := by
  unfold updateDailyBalance
  by_cases h : store.any (Doc.isSnapshotFor (startOfDay now)) = true
  · rw [if_pos h, countP_updateFirst (isSnapshotFor_setBalance _ b) store]
    obtain ⟨d, hd, hpd⟩ := List.any_eq_true.mp h
    have : 0 < store.countP (Doc.isSnapshotFor (startOfDay now)) :=
      List.countP_pos_iff.mpr ⟨d, hd, hpd⟩
    omega
  · rw [if_neg h]
    have h0 : store.countP (Doc.isSnapshotFor (startOfDay now)) = 0 := by
      rw [List.countP_eq_zero]
      intro d hd
      intro hpd
      exact h (List.any_eq_true.mpr ⟨d, hd, hpd⟩)
    simp [List.countP_append, h0, List.countP_cons, Doc.isSnapshotFor]

/-- C1: the spec says getTodayBalance returns null for any today-snapshot
last written more than 15 minutes ago.  The code instead compares the
snapshot's date (start of today, always in the past) with now, a difference
that is never more than 0 minutes, so the 15-minute gate never rejects:
here the snapshot is written at time 0 (midnight) and read 20 minutes later,
well outside the freshness window, yet the balance is returned. -/
theorem getTodayBalance_ignores_freshness :
    (1200000 : Int) - 0 > 15 * minuteMs ∧
      getTodayBalance 1200000 (updateDailyBalance 0 [] 100) = some 100 := by
  constructor
  · decide
  · decide

/-- C9: invoking updateDailyBalance twice in the same day, on a store
holding at most one snapshot for that day, leaves exactly one snapshot for
the day, dated at start-of-today, whose balance is the second call's
value. -/
theorem updateDailyBalance_idempotent (now1 now2 : Int) (store : Store)
    (b1 b2 : ℚ)
    (hday : startOfDay now1 = startOfDay now2)
    (hinv : store.countP (Doc.isSnapshotFor (startOfDay now2)) ≤ 1) :
    (updateDailyBalance now2 (updateDailyBalance now1 store b1) b2).countP
        (Doc.isSnapshotFor (startOfDay now2)) = 1 ∧
      (updateDailyBalance now2 (updateDailyBalance now1 store b1) b2).find?
          (Doc.isSnapshotFor (startOfDay now2)) =
        some (.snapshot (startOfDay now2) b2) := by
  constructor
  · rw [countP_updateDailyBalance]
    rw [show updateDailyBalance now1 store b1 =
          updateDailyBalance now2 store b1 by rw [updateDailyBalance,
            updateDailyBalance, hday]]
    rw [countP_updateDailyBalance]
    omega
  · exact find?_updateDailyBalance now2 _ b2

/-- Witness for C9 at a concrete input: two writes on the same day, an empty
prior store. -/
theorem updateDailyBalance_idempotent_witness :
    (updateDailyBalance 60000 (updateDailyBalance 0 [] 5) 7).countP
        (Doc.isSnapshotFor (startOfDay 60000)) = 1 ∧
      (updateDailyBalance 60000 (updateDailyBalance 0 [] 5) 7).find?
          (Doc.isSnapshotFor (startOfDay 60000)) =
        some (.snapshot (startOfDay 60000) 7) :=
  updateDailyBalance_idempotent 0 60000 [] 5 7 (by decide) (by decide)

/-- C10: updateDailyBalance is frame-preserving: every document other than a
snapshot dated at start-of-today — historical snapshots, credential records,
and the three singleton caches — is left exactly as it was, in place. -/
theorem updateDailyBalance_frame (now : Int) (store : Store) (b : ℚ) :
    (updateDailyBalance now store b).filter
        (fun d => ! Doc.isSnapshotFor (startOfDay now) d) =
      store.filter (fun d => ! Doc.isSnapshotFor (startOfDay now) d) := by
  unfold updateDailyBalance
  by_cases h : store.any (Doc.isSnapshotFor (startOfDay now)) = true
  · rw [if_pos h]
    exact filter_not_updateFirst (isSnapshotFor_setBalance _ b) store
  · rw [if_neg h]
    simp [List.filter_append, Doc.isSnapshotFor]

/-! ## C3: missing-yesterday fallback -/

/-- C3 counterexample: with one snapshot dated today and none for yesterday,
handlePercentageChange reports success but its ratio is the JavaScript NaN
of latest / undefined, not the claimed numeric 0. -/
theorem handlePercentageChange_no_zero_fallback :
    getYesterdayBalance 1000 [Doc.snapshot 0 100] = none ∧
      (handlePercentageChange 1000 [Doc.snapshot 0 100]).ratio = JsNum.nan ∧
      (handlePercentageChange 1000 [Doc.snapshot 0 100]).ratio ≠ JsNum.num 0 := by
  refine ⟨by decide, by decide, by decide⟩

/-- C3 amended: when no snapshot exists for yesterday, the dashboard
change-percent falls back to 0, while handlePercentageChange returns a
successful (non-throwing) result whose ratio is NaN rather than 0. -/
theorem missing_yesterday_fallback (env : Remote) (now : Int) (store : Store)
    (h : ∀ d ∈ store, Doc.isSnapshotFor (startOfDay now - dayMs) d = false) :
    (dashboardHandler env now store).1.changePercent = 0 ∧
      (handlePercentageChange now store).ratio = JsNum.nan ∧
      (handlePercentageChange now store).success = true := by
  have hfind : store.find? (Doc.isSnapshotFor (startOfDay now - dayMs)) = none :=
    List.find?_eq_none.mpr (fun x hx => by simp [h x hx])
  have hyb : getYesterdayBalance now store = none := by
    simp [getYesterdayBalance, hfind]
  refine ⟨?_, ?_, rfl⟩
  · show dashboardChangePercent (getLatestBalance store)
        (getYesterdayBalance now store) = 0
    rw [hyb]
    rfl
  · show jsDivOpt (getLatestBalance store) (getYesterdayBalance now store) = JsNum.nan
    rw [hyb]
    rfl

/-- Witness for C3's amended statement at a concrete input. -/
theorem missing_yesterday_fallback_witness :
    (dashboardHandler env0 1000 [Doc.snapshot 0 100]).1.changePercent = 0 ∧
      (handlePercentageChange 1000 [Doc.snapshot 0 100]).ratio = JsNum.nan ∧
      (handlePercentageChange 1000 [Doc.snapshot 0 100]).success = true :=
  missing_yesterday_fallback env0 1000 [Doc.snapshot 0 100] (by decide)

/-! ## C6: the dashboard lastUpdated timestamp -/

/-- C6 counterexample: with both caches present, the accounts cache updated
at 200 and the symbols cache at 100, the dashboard lastUpdated is 100 (the
symbols timestamp), not the more recent 200 the claim requires. -/
theorem dashboard_lastUpdated_not_most_recent :
    findAccountsCache [Doc.accountsCache [] 200, Doc.symbolsCache [] 100] =
        some ([], 200) ∧
      findSymbolsCache [Doc.accountsCache [] 200, Doc.symbolsCache [] 100] =
        some ([], 100) ∧
      (dashboardHandler env0 300
          [Doc.accountsCache [] 200, Doc.symbolsCache [] 100]).1.lastUpdated = 100 ∧
      (100 : Int) ≠ 200 := by
  refine ⟨by decide, by decide, by decide, by decide⟩

/-- C6 amended: lastUpdated is the symbols-cache timestamp whenever that
cache exists (even when the accounts cache is more recent), else the
accounts-cache timestamp when that exists, else the current time; the
dashboard computes it from the two post-populate cache reads. -/
theorem dashboard_lastUpdated_spec (env : Remote) (now : Int) (store : Store) :
    (dashboardHandler env now store).1.lastUpdated =
        lastUpdatedOf
          (dashboardSymbolsRead env now
            (dashboardAccountsRead env now store).2.1).1
          (dashboardAccountsRead env now store).1 now ∧
      (∀ (syms : List SymbolPerformance) (t : Int)
          (a : Option (List AccountBalance × Int)) (n : Int),
        lastUpdatedOf (some (syms, t)) a n = t) ∧
      (∀ (accs : List AccountBalance) (t n : Int),
        lastUpdatedOf none (some (accs, t)) n = t) ∧
      (∀ n : Int, lastUpdatedOf none none n = n) :=
  ⟨rfl, fun _ _ _ _ => rfl, fun _ _ _ => rfl, fun _ => rfl⟩

/-! ## C7: the day-change percent of the symbols cache -/

/-- Rounding the guarded zero still gives zero. -/
lemma round2_zero : round2 0 = 0 := by
  norm_num [round2, jsRound]

/-- C7: every quote processed by the updateSymbolsCache loop is stored with
day-change percent equal to the spec formula — round2 of the percent move
over basePrice (previous close when available, else open price) — and is
exactly 0 whenever basePrice is not positive; with lastTradePrice 120.50,
openPrice 119 and no previous close the value is 1.26, and a zero basePrice
yields 0 with no division error. -/
theorem updateSymbolsCache_dayChangePercent
    (details : List QuestradeSymbol) (quotes : List QuestradeQuote)
    (q : QuestradeQuote) (hq : q ∈ quotes) :
    (∃ e ∈ buildSymbolPerformances details quotes,
        e.symbol = q.symbol ∧ e.symbolId = q.symbolId ∧
          e.dayChangePercent =
            dayChangeSpec (prevCloseOf details q.symbolId) q.openPrice
              q.lastTradePrice) ∧
      dayChangeSpec none 119 (241/2) = 63/50 ∧
      (∀ lastTradePrice : ℚ, dayChangeSpec none 0 lastTradePrice = 0) := by
  refine ⟨?_, ?_, ?_⟩
  · induction quotes with
    | nil => cases hq
    | cons qh rest ih =>
        rcases List.mem_cons.mp hq with rfl | hmem
        · refine ⟨_, List.mem_cons_self _ _, rfl, rfl, ?_⟩
          show round2 (if (prevCloseOf details q.symbolId).getD q.openPrice > 0
              then ((q.lastTradePrice -
                      (prevCloseOf details q.symbolId).getD q.openPrice) /
                    (prevCloseOf details q.symbolId).getD q.openPrice) * 100
              else 0) =
            dayChangeSpec (prevCloseOf details q.symbolId) q.openPrice
              q.lastTradePrice
          by_cases hb : (prevCloseOf details q.symbolId).getD q.openPrice > 0
          · rw [if_pos hb, dayChangeSpec, if_pos hb]
          · rw [if_neg hb, dayChangeSpec, if_neg hb]
            exact round2_zero
        · obtain ⟨e, he, hprop⟩ := ih hmem
          exact ⟨e, List.mem_cons_of_mem _ he, hprop⟩
  · show dayChangeSpec none 119 (241/2) = 63/50
    norm_num [dayChangeSpec, round2, jsRound, Int.floor_eq_iff]
  · intro lastTradePrice
    show dayChangeSpec none 0 lastTradePrice = 0
    simp only [dayChangeSpec, Option.getD_none]
    rw [if_neg (by norm_num)]

/-- Witness for C7 at a concrete quote: lastTradePrice 120.50, openPrice
119, no symbol details. -/
theorem updateSymbolsCache_dayChangePercent_witness :
    (∃ e ∈ buildSymbolPerformances []
        [{ symbol := "XEQT", symbolId := 7, lastTradePrice := 241/2,
           openPrice := 119 }],
        e.symbol = "XEQT" ∧ e.symbolId = 7 ∧
          e.dayChangePercent = dayChangeSpec (prevCloseOf [] 7) 119 (241/2)) ∧
      dayChangeSpec none 119 (241/2) = 63/50 ∧
      (∀ lastTradePrice : ℚ, dayChangeSpec none 0 lastTradePrice = 0) :=
  updateSymbolsCache_dayChangePercent []
    [{ symbol := "XEQT", symbolId := 7, lastTradePrice := 241/2,
       openPrice := 119 }]
    { symbol := "XEQT", symbolId := 7, lastTradePrice := 241/2,
      openPrice := 119 }
    (List.mem_singleton_self _)

/-! ## C8: first-seen symbol de-duplication -/

/-- The collected symbol ids are pairwise distinct and avoid the already
seen ids. -/
lemma collectSymbolsFrom_nodup (seen : List Nat) (ps : List QuestradePosition) :
    ((collectSymbolsFrom seen ps).map SymbolRef.symbolId).Nodup ∧
      ∀ e ∈ collectSymbolsFrom seen ps, e.symbolId ∉ seen := by
  induction ps generalizing seen with
  | nil => exact ⟨List.nodup_nil, by simp [collectSymbolsFrom]⟩
  | cons p rest ih =>
      by_cases hc : 0 < p.openQuantity ∧ ¬ seen.contains p.symbolId
      · obtain ⟨hnd, hdisj⟩ := ih (p.symbolId :: seen)
        constructor
        · simp only [collectSymbolsFrom, if_pos hc, List.map_cons]
          refine List.nodup_cons.mpr ⟨?_, hnd⟩
          intro hmem
          obtain ⟨e, he, heq⟩ := List.mem_map.mp hmem
          exact hdisj e he (heq ▸ List.mem_cons_self _ _)
        · intro e he
          simp only [collectSymbolsFrom, if_pos hc] at he
          rcases List.mem_cons.mp he with rfl | he'
          · simpa using hc.2
          · exact fun hin => hdisj e he' (List.mem_cons_of_mem _ hin)
      · simp only [collectSymbolsFrom, if_neg hc]
        exact ih seen

/-- A symbol id appears in the collection exactly when some position with
positive open quantity carries it (and it was not already seen). -/
lemma collectSymbolsFrom_mem_iff (seen : List Nat) (ps : List QuestradePosition)
    (id : Nat) :
    (∃ e ∈ collectSymbolsFrom seen ps, e.symbolId = id) ↔
      (id ∉ seen ∧ ∃ p ∈ ps, p.symbolId = id ∧ 0 < p.openQuantity) := by
  induction ps generalizing seen with
  | nil => simp [collectSymbolsFrom]
  | cons p rest ih =>
      by_cases hc : 0 < p.openQuantity ∧ ¬ seen.contains p.symbolId
      · simp only [collectSymbolsFrom, if_pos hc]
        constructor
        · rintro ⟨e, he, heq⟩
          rcases List.mem_cons.mp he with rfl | he'
          · have hid : p.symbolId = id := heq
            refine ⟨hid ▸ (by simpa using hc.2), p, List.mem_cons_self _ _, hid, hc.1⟩
          · obtain ⟨hnotin, p', hp', hprop⟩ := (ih (p.symbolId :: seen)).mp ⟨e, he', heq⟩
            exact ⟨fun h => hnotin (List.mem_cons_of_mem _ h),
              p', List.mem_cons_of_mem _ hp', hprop⟩
        · rintro ⟨hnid, p', hp', hpid, hqty⟩
          by_cases hid : id = p.symbolId
          · exact ⟨⟨p.symbol, p.symbolId⟩, List.mem_cons_self _ _, hid.symm⟩
          · rcases List.mem_cons.mp hp' with rfl | hp''
            · exact absurd hpid.symm hid
            · obtain ⟨e, he, heq⟩ := (ih (p.symbolId :: seen)).mpr
                ⟨by simp [hnid, hid], p', hp'', hpid, hqty⟩
              exact ⟨e, List.mem_cons_of_mem _ he, heq⟩
      · simp only [collectSymbolsFrom, if_neg hc]
        rw [ih seen]
        constructor
        · rintro ⟨h1, p', hp', hprop⟩
          exact ⟨h1, p', List.mem_cons_of_mem _ hp', hprop⟩
        · rintro ⟨h1, p', hp', hpid, hqty⟩
          rcases List.mem_cons.mp hp' with rfl | hp''
          · exact absurd ⟨hqty, by simpa using hpid ▸ h1⟩ hc
          · exact ⟨h1, p', hp'', hpid, hqty⟩

/-- The entry collected for an id is the first qualifying position carrying
that id. -/
lemma collectSymbolsFrom_first (seen : List Nat) (ps : List QuestradePosition)
    (p : QuestradePosition)
    (hfind : ps.find?
        (fun r => decide (0 < r.openQuantity) && r.symbolId == p.symbolId) =
      some p)
    (hns : p.symbolId ∉ seen) :
    (⟨p.symbol, p.symbolId⟩ : SymbolRef) ∈ collectSymbolsFrom seen ps := by
  induction ps generalizing seen with
  | nil => simp at hfind
  | cons q rest ih =>
      cases hq : (decide (0 < q.openQuantity) && q.symbolId == p.symbolId) with
      | true =>
          have hqp : q = p := by
            simpa [List.find?_cons, hq] using hfind
          subst hqp
          have hqty : 0 < q.openQuantity := by
            have := (Bool.and_eq_true _ _).mp hq
            exact of_decide_eq_true this.1
          simp only [collectSymbolsFrom,
            if_pos (⟨hqty, by simpa using hns⟩ :
              0 < q.openQuantity ∧ ¬ seen.contains q.symbolId)]
          exact List.mem_cons_self _ _
      | false =>
          have hfind' : rest.find?
              (fun r => decide (0 < r.openQuantity) && r.symbolId == p.symbolId) =
            some p := by
            simpa [List.find?_cons, hq] using hfind
          by_cases hc : 0 < q.openQuantity ∧ ¬ seen.contains q.symbolId
          · have hne : q.symbolId ≠ p.symbolId := by
              intro hcontra
              rw [hcontra] at hq
              simp [hc.1] at hq
            simp only [collectSymbolsFrom, if_pos hc]
            refine List.mem_cons_of_mem _ (ih (q.symbolId :: seen) hfind' ?_)
            intro hmem
            rcases List.mem_cons.mp hmem with heq | hmem'
            · exact hne heq.symm
            · exact hns hmem'
          · simp only [collectSymbolsFrom, if_neg hc]
            exact ih seen hfind' hns

/-- C8: the symbolMap built by updateSymbolsCache holds exactly one entry
per distinct symbol id over all positions with positive open quantity, the
entry being the first-seen occurrence; the spec's example of two accounts
sharing AAPL yields exactly the three entries AAPL, MSFT, VFV.TO. -/
theorem updateSymbolsCache_dedup :
    (∀ ps : List QuestradePosition,
        ((collectSymbols ps).map SymbolRef.symbolId).Nodup) ∧
      (∀ (ps : List QuestradePosition) (id : Nat),
        (∃ e ∈ collectSymbols ps, e.symbolId = id) ↔
          ∃ p ∈ ps, p.symbolId = id ∧ 0 < p.openQuantity) ∧
      (∀ (ps : List QuestradePosition) (p : QuestradePosition),
        ps.find?
            (fun r => decide (0 < r.openQuantity) && r.symbolId == p.symbolId) =
          some p →
        (⟨p.symbol, p.symbolId⟩ : SymbolRef) ∈ collectSymbols ps) ∧
      collectSymbols
          [⟨"AAPL", 1, 1⟩, ⟨"MSFT", 2, 1⟩, ⟨"AAPL", 1, 1⟩, ⟨"VFV.TO", 3, 1⟩] =
        [⟨"AAPL", 1⟩, ⟨"MSFT", 2⟩, ⟨"VFV.TO", 3⟩] := by
  refine ⟨fun ps => (collectSymbolsFrom_nodup [] ps).1,
    fun ps id => by simpa using collectSymbolsFrom_mem_iff [] ps id,
    fun ps p h => collectSymbolsFrom_first [] ps p h (List.not_mem_nil _),
    ?_⟩
  simp [collectSymbols, collectSymbolsFrom]

/-- Witness for C8's first-seen clause at a concrete input. -/
theorem updateSymbolsCache_dedup_witness :
    (⟨"AAPL", 1⟩ : SymbolRef) ∈ collectSymbols
        [⟨"AAPL", 1, 1⟩, ⟨"MSFT", 2, 1⟩, ⟨"AAPL", 1, 1⟩, ⟨"VFV.TO", 3, 1⟩] :=
  updateSymbolsCache_dedup.2.2.1 _ ⟨"AAPL", 1, 1⟩ (by
    simp [List.find?_cons])

/-! ## C5: dashboard lazy-populate of the singleton caches -/

/-- C5: for each singleton cache the dashboard performs a single
populate-then-reread attempt: the matching refresh procedure runs exactly
once when the cache is absent and never when present, the post-populate
value is the single re-read of the store the refresh produced, and a cache
still absent after the attempt degrades the dashboard field to an empty
list (accounts, symbols) or zero (exchange rate) without failing. -/
theorem dashboard_lazy_populate (env : Remote) (now : Int) (store : Store) :
    (dashboardAccountsRead env now store).2.2 =
        (if findAccountsCache store = none then 1 else 0) ∧
      (dashboardSymbolsRead env now (dashboardAccountsRead env now store).2.1).2.2 =
        (if findSymbolsCache (dashboardAccountsRead env now store).2.1 = none
          then 1 else 0) ∧
      (dashboardExchangeRead env now
          (dashboardSymbolsRead env now
            (dashboardAccountsRead env now store).2.1).2.1).2.2 =
        (if findExchangeRateCache
            (dashboardSymbolsRead env now
              (dashboardAccountsRead env now store).2.1).2.1 = none
          then 1 else 0) ∧
      (findAccountsCache store = none →
        (dashboardAccountsRead env now store).2.1 =
            updateAccountsCache env now store ∧
          (dashboardAccountsRead env now store).1 =
            findAccountsCache (updateAccountsCache env now store)) ∧
      (findSymbolsCache (dashboardAccountsRead env now store).2.1 = none →
        (dashboardSymbolsRead env now (dashboardAccountsRead env now store).2.1).1 =
          findSymbolsCache
            (updateSymbolsCache env now (dashboardAccountsRead env now store).2.1)) ∧
      (findExchangeRateCache
          (dashboardSymbolsRead env now
            (dashboardAccountsRead env now store).2.1).2.1 = none →
        (dashboardExchangeRead env now
            (dashboardSymbolsRead env now
              (dashboardAccountsRead env now store).2.1).2.1).1 =
          findExchangeRateCache
            (updateExchangeRateCache env now
              (dashboardSymbolsRead env now
                (dashboardAccountsRead env now store).2.1).2.1)) ∧
      (dashboardHandler env now store).1.accounts =
        (((dashboardAccountsRead env now store).1.map Prod.fst).getD []) ∧
      ((dashboardAccountsRead env now store).1 = none →
        (dashboardHandler env now store).1.accounts = []) ∧
      ((dashboardSymbolsRead env now
          (dashboardAccountsRead env now store).2.1).1 = none →
        (dashboardHandler env now store).1.symbols = []) ∧
      ((dashboardExchangeRead env now
          (dashboardSymbolsRead env now
            (dashboardAccountsRead env now store).2.1).2.1).1 = none →
        (dashboardHandler env now store).1.usdToCad = 0) := by
  refine ⟨?_, ?_, ?_, ?_, ?_, ?_, rfl, ?_, ?_, ?_⟩
  · cases h : findAccountsCache store <;> simp [dashboardAccountsRead, h]
  · cases h : findSymbolsCache (dashboardAccountsRead env now store).2.1 <;>
      simp [dashboardSymbolsRead, h]
  · cases h : findExchangeRateCache
        (dashboardSymbolsRead env now (dashboardAccountsRead env now store).2.1).2.1 <;>
      simp [dashboardExchangeRead, h]
  · intro h
    exact ⟨by simp [dashboardAccountsRead, h], by simp [dashboardAccountsRead, h]⟩
  · intro h
    simp [dashboardSymbolsRead, h]
  · intro h
    simp [dashboardExchangeRead, h]
  · intro h
    show ((dashboardAccountsRead env now store).1.map Prod.fst).getD [] = []
    rw [h]
    rfl
  · intro h
    show ((dashboardSymbolsRead env now
        (dashboardAccountsRead env now store).2.1).1.map Prod.fst).getD [] = []
    rw [h]
    rfl
  · intro h
    show ((dashboardExchangeRead env now
        (dashboardSymbolsRead env now
          (dashboardAccountsRead env now store).2.1).2.1).1.map Prod.fst).getD 0 = 0
    rw [h]
    rfl

/-- Witness for C5 at a concrete input: an empty store, every remote call
failing.  The accounts and symbols refreshes still write empty caches (so
the fields are empty lists), the exchange-rate refresh fails and leaves the
cache absent, and the dashboard degrades that field to 0; each refresh ran
exactly once. -/
theorem dashboard_lazy_populate_witness :
    (dashboardAccountsRead env0 0 []).2.2 = 1 ∧
      (dashboardSymbolsRead env0 0 (dashboardAccountsRead env0 0 []).2.1).2.2 = 1 ∧
      (dashboardExchangeRead env0 0
          (dashboardSymbolsRead env0 0
            (dashboardAccountsRead env0 0 []).2.1).2.1).2.2 = 1 ∧
      (dashboardHandler env0 0 []).1.accounts = [] ∧
      (dashboardHandler env0 0 []).1.usdToCad = 0 := by
  have h := dashboard_lazy_populate env0 0 []
  refine ⟨?_, ?_, ?_, ?_, ?_⟩
  · rw [h.1]
    decide
  · rw [h.2.1]
    decide
  · rw [h.2.2.1]
    decide
  · rw [h.2.2.2.2.2.2.1]
    decide
  · exact h.2.2.2.2.2.2.2.2.2 (by decide)

/-! ## C2 and C4: the credential refresh loop -/

/-- Membership in the credential projection of the store. -/
lemma mem_authDocs {r : Auth} {l : Store} : r ∈ authDocs l ↔ Doc.authDoc r ∈ l := by
  constructor
  · intro h
    obtain ⟨d, hd, hfd⟩ := List.mem_filterMap.mp h
    cases d with
    | authDoc a =>
        obtain rfl : a = r := by simpa using hfd
        exact hd
    | snapshot x y => simp at hfd
    | accountsCache x y => simp at hfd
    | symbolsCache x y => simp at hfd
    | exchangeRateCache x y => simp at hfd
  · intro h
    exact List.mem_filterMap.mpr ⟨Doc.authDoc r, h, rfl⟩

/-- When every token exchange succeeds, the calls made by the refresh loop
are exactly one per stale credential, in order. -/
lemma getAuthsLoop_calls (env : Remote) (now : Int)
    (hok : ∀ t, (env.refreshGrant t).isOk = true) :
    ∀ (l : List Auth) (store : Store),
      (getAuthsLoop env now l store).calls =
        (l.filter (fun a => decide (a.expiry < now))).map Auth.refreshToken := by
  intro l
  induction l with
  | nil => intro store; rfl
  | cons a rest ih =>
      intro store
      by_cases ha : a.expiry < now
      · cases hg : env.refreshGrant a.refreshToken with
        | error s =>
            have := hok a.refreshToken
            rw [hg] at this
            simp [Except.isOk, Except.toBool] at this
        | ok g => simp [getAuthsLoop, if_pos ha, hg, List.filter_cons, ha, ih]
      · simp [getAuthsLoop, if_neg ha, List.filter_cons, ha, ih]

/-- A document that does not match the filter survives updateFirst. -/
lemma mem_updateFirst_of_neg {p : Doc → Bool} {f : Doc → Doc} {d : Doc} :
    ∀ {l : Store}, d ∈ l → p d = false → d ∈ updateFirst p f l := by
  intro l hd hpd
  induction l with
  | nil => cases hd
  | cons x rest ih =>
      rcases List.mem_cons.mp hd with rfl | hd'
      · simp [updateFirst, hpd]
      · by_cases hx : p x = true
        · simp only [updateFirst, if_pos hx]
          exact List.mem_cons_of_mem _ hd'
        · simp only [updateFirst, if_neg hx]
          exact List.mem_cons_of_mem _ (ih hd')

/-- The upserted credential is present afterwards. -/
lemma upsertByOwner_self_mem (store : Store) (a : Auth) :
    a ∈ authDocs (upsertByOwner store a) := by
  rw [mem_authDocs]
  unfold upsertByOwner upsertDoc
  by_cases h : store.any (Doc.hasOwner a.owner) = true
  · rw [if_pos h]
    induction store with
    | nil => simp at h
    | cons d rest ih =>
        by_cases hd : Doc.hasOwner a.owner d = true
        · simp [updateFirst, hd]
        · have h' : rest.any (Doc.hasOwner a.owner) = true := by
            simpa [List.any_cons, hd] using h
          simp only [updateFirst, if_neg hd]
          exact List.mem_cons_of_mem _ (ih h')
  · rw [if_neg h]
    exact List.mem_append_right _ (List.mem_singleton_self _)

/-- Upserting a credential of a different owner preserves any credential
fact about the owner o. -/
lemma upsertByOwner_preserves {o : String} {P : Auth → Prop} {store : Store}
    {a : Auth} (hne : o ≠ a.owner)
    (h : ∃ r ∈ authDocs store, r.owner = o ∧ P r) :
    ∃ r ∈ authDocs (upsertByOwner store a), r.owner = o ∧ P r := by
  obtain ⟨r, hr, hro, hP⟩ := h
  refine ⟨r, ?_, hro, hP⟩
  rw [mem_authDocs] at hr ⊢
  unfold upsertByOwner upsertDoc
  by_cases hh : store.any (Doc.hasOwner a.owner) = true
  · rw [if_pos hh]
    apply mem_updateFirst_of_neg hr
    simp [Doc.hasOwner, hro]
    exact hne
  · rw [if_neg hh]
    exact List.mem_append_left _ hr

/-- The refresh loop touches only the owners appearing in its list: any
credential fact about an owner outside the list is preserved. -/
lemma getAuthsLoop_preserves (env : Remote) (now : Int) {o : String}
    {P : Auth → Prop} :
    ∀ (l : List Auth) (store : Store),
      (∀ b ∈ l, b.owner ≠ o) →
      (∃ r ∈ authDocs store, r.owner = o ∧ P r) →
      ∃ r ∈ authDocs (getAuthsLoop env now l store).store, r.owner = o ∧ P r := by
  intro l
  induction l with
  | nil => intro store _ h; exact h
  | cons a rest ih =>
      intro store hl h
      by_cases ha : a.expiry < now
      · cases hg : env.refreshGrant a.refreshToken with
        | error s => simpa [getAuthsLoop, if_pos ha, hg] using h
        | ok g =>
            simp only [getAuthsLoop, if_pos ha, hg]
            refine ih _ (fun b hb => hl b (List.mem_cons_of_mem _ hb)) ?_
            exact upsertByOwner_preserves
              (Ne.symm (hl a (List.mem_cons_self _ _))) h
      · simp only [getAuthsLoop, if_neg ha]
        exact ih _ (fun b hb => hl b (List.mem_cons_of_mem _ hb)) h

/-- Every stale credential of the list ends up persisted with the new
expiry computed from its grant, provided owners are pairwise distinct and
all token exchanges succeed. -/
lemma getAuthsLoop_persists (env : Remote) (now : Int)
    (hok : ∀ t, (env.refreshGrant t).isOk = true) :
    ∀ (l : List Auth) (store : Store),
      l.Pairwise (fun x y => x.owner ≠ y.owner) →
      ∀ a ∈ l, a.expiry < now →
        ∃ g, env.refreshGrant a.refreshToken = .ok g ∧
          ∃ r ∈ authDocs (getAuthsLoop env now l store).store,
            r.owner = a.owner ∧ r.expiry = now + (g.expires_in - 30) * 1000 := by
  intro l
  induction l with
  | nil => intro store _ a ha; cases ha
  | cons b rest ih =>
      intro store hpw a ha hstale
      have hpw1 : ∀ x ∈ rest, b.owner ≠ x.owner := (List.pairwise_cons.mp hpw).1
      have hpw2 : rest.Pairwise (fun x y => x.owner ≠ y.owner) :=
        (List.pairwise_cons.mp hpw).2
      rcases List.mem_cons.mp ha with rfl | ha'
      · cases hg : env.refreshGrant a.refreshToken with
        | error s =>
            have := hok a.refreshToken
            rw [hg] at this
            simp [Except.isOk, Except.toBool] at this
        | ok g =>
            refine ⟨g, rfl, ?_⟩
            simp only [getAuthsLoop, if_pos hstale, hg]
            refine getAuthsLoop_preserves env now rest _
              (fun x hx => (hpw1 x hx).symm) ?_
            exact ⟨refreshAuth now g a, upsertByOwner_self_mem store _, rfl, rfl⟩
      · by_cases hbst : b.expiry < now
        · cases hg : env.refreshGrant b.refreshToken with
          | error s =>
              have := hok b.refreshToken
              rw [hg] at this
              simp [Except.isOk, Except.toBool] at this
          | ok g =>
              simp only [getAuthsLoop, if_pos hbst, hg]
              exact ih _ hpw2 a ha' hstale
        · simp only [getAuthsLoop, if_neg hbst]
          exact ih _ hpw2 a ha' hstale

/-- C2 counterexample: getAuths refreshes only when expiry is strictly
before now, so a credential with expiry exactly equal to now triggers no
token-exchange call; and with a degenerate grant lifetime of 0 seconds the
stored expiry decreases (new expiry = now - 30s, below the old 999000). -/
theorem getAuths_refresh_counterexample :
    (getAuths envOk 1000000
        [Doc.authDoc { owner := "a", accessToken := "at", refreshToken := "rt",
                       expiry := 1000000, uri := "u" }]).calls = [] ∧
      authDocs (getAuths envZero 1000000
          [Doc.authDoc { owner := "b", accessToken := "at", refreshToken := "rt",
                         expiry := 999000, uri := "u" }]).store =
        [{ owner := "b", accessToken := "at2", refreshToken := "rt2",
           expiry := 970000, uri := "u2" }] ∧
      (970000 : Int) < 999000 := by
  refine ⟨by decide, by decide, by decide⟩

/-- C2 amended: with owners pairwise distinct and every token exchange
succeeding, getAuths issues exactly one token-exchange call per credential
whose expiry is strictly before now (none for the others, in list order),
and each such credential is persisted keyed by its owner with expiry
now + grant lifetime - 30 seconds, a strict increase whenever the grant
lifetime is at least 30 seconds. -/
theorem getAuths_refresh (env : Remote) (now : Int) (store : Store)
    (hok : ∀ t, (env.refreshGrant t).isOk = true)
    (howners : (authDocs store).Pairwise (fun x y => x.owner ≠ y.owner)) :
    (getAuths env now store).calls =
        ((authDocs store).filter (fun a => decide (a.expiry < now))).map
          Auth.refreshToken ∧
      ∀ a ∈ authDocs store, a.expiry < now →
        ∃ g, env.refreshGrant a.refreshToken = .ok g ∧
          (∃ r ∈ authDocs (getAuths env now store).store,
            r.owner = a.owner ∧ r.expiry = now + (g.expires_in - 30) * 1000) ∧
          (30 ≤ g.expires_in → a.expiry < now + (g.expires_in - 30) * 1000) := by
  refine ⟨getAuthsLoop_calls env now hok _ _, ?_⟩
  intro a ha hstale
  obtain ⟨g, hg, hr⟩ :=
    getAuthsLoop_persists env now hok (authDocs store) store howners a ha hstale
  refine ⟨g, hg, hr, fun h30 => ?_⟩
  have hnn : (0 : Int) ≤ (g.expires_in - 30) * 1000 :=
    mul_nonneg (by linarith) (by norm_num)
  linarith

/-- Witness for C2's amended statement at a concrete input: one credential,
expired, refreshed with the 30-minute grant. -/
theorem getAuths_refresh_witness :
    (getAuths envOk 1000000
        [Doc.authDoc { owner := "chris", accessToken := "at",
                       refreshToken := "rt", expiry := 0, uri := "u" }]).calls =
        ["rt"] ∧
      ∃ r ∈ authDocs (getAuths envOk 1000000
          [Doc.authDoc { owner := "chris", accessToken := "at",
                         refreshToken := "rt", expiry := 0, uri := "u" }]).store,
        r.owner = "chris" ∧ r.expiry = 1000000 + (1800 - 30) * 1000 := by
  have h := getAuths_refresh envOk 1000000
      [Doc.authDoc { owner := "chris", accessToken := "at", refreshToken := "rt",
                     expiry := 0, uri := "u" }]
      (fun _ => rfl) (by simp [authDocs])
  refine ⟨by rw [h.1]; decide, ?_⟩
  obtain ⟨g, hg, hr, _⟩ := h.2
      { owner := "chris", accessToken := "at", refreshToken := "rt",
        expiry := 0, uri := "u" } (by decide) (by decide)
  have hgg : g = grant1800 :=
    (Except.ok.inj (show (Except.ok grant1800 : Except Int _) = .ok g from hg)).symm
  rw [hgg] at hr
  exact hr

/-- The refresh loop propagates the first failed token exchange: once every
earlier stale credential has refreshed successfully, a failing exchange
makes the whole loop result that error. -/
lemma getAuthsLoop_error (env : Remote) (now : Int) (a : Auth) (s : Int)
    (post : List Auth) (hstale : a.expiry < now)
    (hfail : env.refreshGrant a.refreshToken = .error s) :
    ∀ (pre : List Auth) (store : Store),
      (∀ b ∈ pre, b.expiry < now → (env.refreshGrant b.refreshToken).isOk = true) →
      (getAuthsLoop env now (pre ++ a :: post) store).result = .error s := by
  intro pre
  induction pre with
  | nil =>
      intro store _
      simp [getAuthsLoop, if_pos hstale, hfail]
  | cons b pre' ih =>
      intro store hpre
      by_cases hb : b.expiry < now
      · cases hg : env.refreshGrant b.refreshToken with
        | error s' =>
            have := hpre b (List.mem_cons_self _ _) hb
            rw [hg] at this
            simp [Except.isOk, Except.toBool] at this
        | ok g =>
            simp only [List.cons_append, getAuthsLoop, if_pos hb, hg,
              List.append_eq]
            rw [ih _ (fun x hx hxs => hpre x (List.mem_cons_of_mem _ hx) hxs)]
            rfl
      · simp only [List.cons_append, getAuthsLoop, if_neg hb, List.append_eq]
        rw [ih _ (fun x hx hxs => hpre x (List.mem_cons_of_mem _ hx) hxs)]
        rfl

/-- C4: if a token-exchange call made during getAuths fails with status s
(every stale credential processed before it having refreshed successfully),
the whole retrieval fails carrying that status and no credential list is
returned. -/
theorem getAuths_failure_aborts (env : Remote) (now : Int) (store : Store)
    (a : Auth) (s : Int) (pre post : List Auth)
    (hsplit : authDocs store = pre ++ a :: post)
    (hpre : ∀ b ∈ pre, b.expiry < now →
      (env.refreshGrant b.refreshToken).isOk = true)
    (hstale : a.expiry < now)
    (hfail : env.refreshGrant a.refreshToken = .error s) :
    (getAuths env now store).result = .error s ∧
      ∀ l, (getAuths env now store).result ≠ .ok l := by
  have h : (getAuths env now store).result = .error s := by
    rw [getAuths, hsplit]
    exact getAuthsLoop_error env now a s post hstale hfail pre store hpre
  exact ⟨h, fun l hl => by rw [h] at hl; cases hl⟩

/-- Witness for C4 at a concrete input: a single expired credential whose
token exchange answers 500. -/
theorem getAuths_failure_aborts_witness :
    (getAuths env0 1000
        [Doc.authDoc { owner := "o", accessToken := "at", refreshToken := "rt",
                       expiry := 0, uri := "u" }]).result =
      Except.error 500 :=
  (getAuths_failure_aborts env0 1000
    [Doc.authDoc { owner := "o", accessToken := "at", refreshToken := "rt",
                   expiry := 0, uri := "u" }]
    { owner := "o", accessToken := "at", refreshToken := "rt",
      expiry := 0, uri := "u" } 500 [] []
    rfl (fun b hb => absurd hb (List.not_mem_nil b)) (by decide) rfl).1
